import Mathlib

/-!
Verification of the SA-driven fuzzer resource scheduler (`sc_sculuer.py`).

The Python source is shallowly embedded: byte buffers become `List ℕ`
(each entry one byte value), floats become `ℚ`, Python dict/attribute
state becomes explicit structures, fallible operations return `Option`,
and the random draws consumed by the scheduler become explicit inputs.
Definitions come first, followed by all theorems.
-/

namespace ConFuzz

/-! ## Definitions -/

/-- Fuelled bit-count of a natural number.  The fuel argument makes the
recursion structural so that the kernel can evaluate it on literals. -/
def popcountAux : ℕ → ℕ → ℕ
  | 0, _ => 0
  | _ + 1, 0 => 0
  | fuel + 1, n + 1 => (n + 1) % 2 + popcountAux fuel ((n + 1) / 2)

/-- Number of set bits of a natural number (`bin(byte).count('1')`). -/
def popcount (n : ℕ) : ℕ := popcountAux n n

/-- `CoverageMonitor.count_branches(data)`:
`sum(bin(byte).count('1') for byte in data)`. -/
def count_branches (data : List ℕ) : ℕ := (data.map popcount).sum

/-- Bitwise-or of two byte buffers, the shorter one zero-padded to the
length of the longer. -/
def byteOrPad : List ℕ → List ℕ → List ℕ
  | [], bs => bs
  | a :: as, [] => a :: as
  | a :: as, b :: bs => (a ||| b) :: byteOrPad as bs

/-- One pass of the merging loop in `get_merged_coverage`: extend `merged`
with zero bytes if `data` is longer, then or `data` into the prefix.
Mirrors

    if len(data) > len(merged):
        merged.extend(b'\x00' * (len(data) - len(merged)))
    for i in range(len(data)):
        merged[i] |= data[i]
-/
def or_into (merged data : List ℕ) : List ℕ :=
  let padded := if merged.length < data.length
    then merged ++ List.replicate (data.length - merged.length) 0
    else merged
  List.zipWith (fun m d => m ||| d) (padded.take data.length) data ++
    padded.drop data.length

/-- `CoverageMonitor.get_merged_coverage`: snapshots of the given slots are
or-merged pairwise (`or_into`), starting from the first snapshot, and the
result's popcount is returned; the empty slot list yields 0.
`edge_coverage` models the `defaultdict(bytes)` snapshot map (missing
slots read as the empty buffer). -/
def get_merged_coverage (edge_coverage : ℕ → List ℕ) (active_instances : List ℕ) : ℕ :=
  match active_instances.map edge_coverage with
  | [] => 0
  | first :: rest => count_branches (rest.foldl or_into first)

/-- Modelled from the spec's words (for the refinement check of C3):
"computes the bitwise-OR across all snapshots of the given slots,
zero-padding shorter buffers to the length of the longest, and returns
the popcount of the result; returns 0 for an empty slot set". -/
def merged_spec (snapshots : List (List ℕ)) : ℕ :=
  match snapshots with
  | [] => 0
  | _ => count_branches (snapshots.foldl byteOrPad [])

/-- Substring containment (Python's `'sub' in name`). -/
def contains_sub (sub s : List Char) : Bool :=
  (List.range (s.length + 1)).any fun i => decide ((s.drop i).take sub.length = sub)

/-- `Path(p).name`: everything after the last '/'. -/
def path_name (p : List Char) : List Char :=
  (p.reverse.takeWhile fun c => decide (c ≠ '/')).reverse

/-- Index of the last '.' in a name, when one exists (`name.rfind('.')`). -/
def last_dot_idx (name : List Char) : Option ℕ :=
  ((List.range name.length).filter fun i => decide (name[i]? = some '.')).getLast?

/-- `Path(p).stem`: the final component without its suffix.  Following
`pathlib`, the suffix starts at the last dot only when that dot is
neither the first nor the last character of the name. -/
def stem (p : List Char) : List Char :=
  let name := path_name p
  match last_dot_idx name with
  | some i => if 0 < i ∧ i < name.length - 1 then name.take i else name
  | none => name

/-- `ResourcePool._calc_weight(config_path)`:

    name = Path(config_path).stem.lower()
    if 'heavy' in name: return 2.0
    if 'medium' in name: return 1.5
    return 1.0
-/
def calc_weight (config_path : String) : ℚ :=
  let name := (stem config_path.toList).map Char.toLower
  if contains_sub "heavy".toList name then 2
  else if contains_sub "medium".toList name then 1.5
  else 1

/-- The operations that can touch a slot's weight after `_init_pool`:
a successful `switch_config` sets it to `_calc_weight` of the new
configuration; a failed launch only clears the active flag; `deactivate`
only clears the active flag and the process handle. -/
inductive SlotOp : Type
  | switchOk (config_path : String) : SlotOp
  | switchFail : SlotOp
  | deact : SlotOp

def apply_slot_op (w : ℚ) : SlotOp → ℚ
  | SlotOp.switchOk cfg => calc_weight cfg
  | SlotOp.switchFail => w
  | SlotOp.deact => w

/-- A slot's weight after a sequence of operations; `_init_pool` creates
every slot with `'weight': 1.0`. -/
def weight_after (ops : List SlotOp) : ℚ := ops.foldl apply_slot_op 1

/-- `EnhancedSAScheduler._calculate_energy`:

    resource_cost = sum(self.pool.instances[i]['weight'] for i in active_set)
    coverage = self.monitor.get_merged_coverage(active_set)
    return (0.7 * resource_cost) - (0.3 * coverage)
-/
def calculate_energy (weight : ℕ → ℚ) (edge_coverage : ℕ → List ℕ)
    (active_set : List ℕ) : ℚ :=
  let resource_cost : ℚ := (active_set.map weight).sum
  let coverage : ℕ := get_merged_coverage edge_coverage active_set
  0.7 * resource_cost - 0.3 * (coverage : ℚ)

structure SAArgs where
  init_temp : ℚ
  cool_rate : ℚ
  min_temp : ℚ
  max_stagnant : ℕ

structure SchedState where
  temp : ℚ
  best_state : List ℕ
  best_energy : Option ℚ
  stagnation : ℕ

/-- `candidate_e < self.best_energy`, where `best_energy` is initialised
to `float('inf')`, modelled as `none`. -/
def energy_lt (c : ℚ) : Option ℚ → Bool
  | none => true
  | some b => decide (c < b)

/-- The Metropolis acceptance probability computed inside
`EnhancedSAScheduler.step`:

    accept_prob = math.exp(-(candidate_e - current_e)/self.temp) \
        if candidate_e > current_e else 1.0

with `expf` standing for `math.exp` and the energies recomputed from the
pool/monitor data exactly as the method does. -/
def accept_prob (expf : ℚ → ℚ) (weight : ℕ → ℚ) (edge_coverage : ℕ → List ℕ)
    (current_active candidate : List ℕ) (temp : ℚ) : ℚ :=
  let current_e := calculate_energy weight edge_coverage current_active
  let candidate_e := calculate_energy weight edge_coverage candidate
  if candidate_e > current_e then expf (-(candidate_e - current_e) / temp) else 1

/-- `EnhancedSAScheduler.step`, with the data the Python method obtains
from its collaborators made explicit: `current_active` is the active set
read from the pool, `candidate` the set returned by
`_generate_candidate` (whose pool mutation has already happened), `u`
the `random.random()` draw, and `expf` stands for `math.exp`:

    if random.random() < accept_prob:
        if candidate_e < self.best_energy:
            self.best_energy = candidate_e
            self.best_state = candidate
            self.stagnation = 0
        else:
            self.stagnation += 1
    self.temp = max(self.temp * self.args.cool_rate, self.args.min_temp)
-/
def step (expf : ℚ → ℚ) (args : SAArgs) (weight : ℕ → ℚ) (edge_coverage : ℕ → List ℕ)
    (current_active candidate : List ℕ) (u : ℚ) (s : SchedState) : SchedState :=
  let candidate_e := calculate_energy weight edge_coverage candidate
  let s1 :=
    if u < accept_prob expf weight edge_coverage current_active candidate s.temp then
      if energy_lt candidate_e s.best_energy then
        { s with best_energy := some candidate_e, best_state := candidate,
                 stagnation := 0 }
      else
        { s with stagnation := s.stagnation + 1 }
    else s
  { s1 with temp := max (s1.temp * args.cool_rate) args.min_temp }

/-- The temperature sequence generated by repeated cooling
`T ← max(T * cool_rate, min_temp)` starting from `t0`. -/
def temp_seq (t0 c m : ℚ) : ℕ → ℚ
  | 0 => t0
  | n + 1 => max (temp_seq t0 c m n * c) m

/-- The stagnation check performed by the driver loop in `main`:

    if scheduler.stagnation >= args.max_stagnant:
        scheduler.temp = args.init_temp
        scheduler.stagnation = 0
-/
def driver_stagnation_check (args : SAArgs) (s : SchedState) : SchedState :=
  if args.max_stagnant ≤ s.stagnation then
    { s with temp := args.init_temp, stagnation := 0 }
  else s

/-- `random.choice(l)` with the uniform draw made explicit as a seed `k`;
`random.choice` of an empty sequence raises `IndexError`, modelled as
`none` (for nonempty `l` the index `k % l.length` is in range). -/
def random_choice (k : ℕ) (l : List String) : Option String := l[k % l.length]?

/-- Stable ascending insertion by the efficiency key; ties keep the
earlier element first, as Python's stable `list.sort(key=...)` does. -/
def insert_by_eff (p : ℕ × ℚ) : List (ℕ × ℚ) → List (ℕ × ℚ)
  | [] => [p]
  | q :: qs => if q.2 < p.2 then q :: insert_by_eff p qs else p :: q :: qs

def sort_by_eff : List (ℕ × ℚ) → List (ℕ × ℚ)
  | [] => []
  | p :: ps => insert_by_eff p (sort_by_eff ps)

/-- `EnhancedSAScheduler._optimize_by_efficiency`: rank the active slots
by `coverage / (weight + 1e-6)` ascending, take the worst-ranked slot and
re-assign it a configuration drawn from the pool excluding the slot's
current configuration (`switch_config` side effect); the slot set itself
is returned unchanged.  `random.choice` of the empty filtered pool raises
`IndexError`, modelled as `none`. -/
def optimize_by_efficiency (weight : ℕ → ℚ) (edge_coverage : ℕ → List ℕ)
    (current_config : ℕ → Option String) (config_pool : List String) (k : ℕ)
    (current_set : List ℕ) : Option (List ℕ) :=
  let efficiencies := current_set.map fun inst_id =>
    (inst_id, (count_branches (edge_coverage inst_id) : ℚ) / (weight inst_id + 1e-6))
  match sort_by_eff efficiencies with
  | [] => some current_set
  | (worst_id, _) :: _ =>
    match random_choice k
        (config_pool.filter fun c => decide (some c ≠ current_config worst_id)) with
    | none => none
    | some _ => some current_set

/-- The replacement loop of `HighPerformanceSAScheduler._batch_optimize`:
`num_changes` times, pop the worst-ranked slot and re-assign it a
configuration excluding its current one; `ks` supplies one
`random.choice` seed per iteration, and the threaded `cfg` map models
`switch_config` updating the slot's `current_config`. -/
def batch_optimize_loop (config_pool : List String) :
    ℕ → List ℕ → (ℕ → Option String) → List (ℕ × ℚ) → Option (ℕ → Option String)
  | 0, _, cfg, _ => some cfg
  | _ + 1, _, cfg, [] => some cfg
  | n + 1, ks, cfg, (worst_id, _) :: rest =>
    match random_choice (ks.headD 0)
        (config_pool.filter fun c => decide (some c ≠ cfg worst_id)) with
    | none => none
    | some new_config =>
      batch_optimize_loop config_pool n ks.tail
        (fun i => if i = worst_id then some new_config else cfg i) rest

/-- `HighPerformanceSAScheduler._batch_optimize`. -/
def batch_optimize (weight : ℕ → ℚ) (edge_coverage : ℕ → List ℕ)
    (current_config : ℕ → Option String) (config_pool : List String) (ks : List ℕ)
    (num_changes : ℕ) (current_set : List ℕ) : Option (List ℕ) :=
  let efficiencies := current_set.map fun inst_id =>
    (inst_id, (count_branches (edge_coverage inst_id) : ℚ) / (weight inst_id + 1e-6))
  match batch_optimize_loop config_pool num_changes ks current_config
      (sort_by_eff efficiencies) with
  | none => none
  | some _ => some current_set

/-- Where, inside the `try` block of `main`, execution is cut short:
during the header prints, before `pool = ResourcePool(args)` has been
re-bound, or during some iteration of the driver loop. -/
inductive RaisePoint : Type
  | headerPrints : RaisePoint
  | loopIteration (iteration : ℕ) : RaisePoint

/-- The exception classes `main` handles: `KeyboardInterrupt` and any
other `Exception` escaping the loop body. -/
inductive PyExc : Type
  | keyboardInterrupt : PyExc
  | exception : PyExc

structure MainState where
  pool_var : Option Unit
  cleanup_ran : Bool

/-- The `try` body of `main` up to the point where the exception fires:
the header prints touch nothing; once the loop is entered, `pool` has
been re-bound to the live `ResourcePool`. -/
def main_try_body (raise_at : RaisePoint) (e : PyExc) (s : MainState) :
    MainState × PyExc :=
  match raise_at with
  | RaisePoint.headerPrints => (s, e)
  | RaisePoint.loopIteration _ => ({ s with pool_var := some () }, e)

/-- The `finally` clause of `main`: `if pool: pool.cleanup()`. -/
def main_finally (s : MainState) : MainState :=
  if s.pool_var.isSome then { s with cleanup_ran := true } else s

/-- `main` around its `try / except / finally`: before the `try`, the
`pool` local is bound to an `OptimizedResourcePool` and then immediately
re-bound to `None`; both `except` clauses swallow the exception, and the
`finally` clause always runs afterwards. -/
def main_model (raise_at : RaisePoint) (e : PyExc) : MainState :=
  main_finally (main_try_body raise_at e { pool_var := none, cleanup_ran := false }).1

/-- The module's top-level definitions of `sc_sculuer.py` in source
order; a class definition carries the name of the base class it
evaluates at definition time. -/
def module_top_level : List (String × Option String) :=
  [("parse_args", none),
   ("AsyncCoverageMonitor", some "CoverageMonitor"),
   ("CoverageMonitor", none),
   ("OptimizedResourcePool", some "ResourcePool"),
   ("ResourcePool", none),
   ("HighPerformanceSAScheduler", some "EnhancedSAScheduler"),
   ("EnhancedSAScheduler", none),
   ("main", none)]

/-- Executing the top-level statements in order: defining a class whose
base name is not yet bound raises `NameError`, modelled as `none`. -/
def exec_top_level : List (String × Option String) → List String → Option (List String)
  | [], env => some env
  | (n, none) :: rest, env => exec_top_level rest (env ++ [n])
  | (n, some base) :: rest, env =>
    if base ∈ env then exec_top_level rest (env ++ [n]) else none

/-! ## Lemmas about popcount and merging -/

theorem popcountAux_eq (n : ℕ) : ∀ f g : ℕ, n ≤ f → n ≤ g →
    popcountAux f n = popcountAux g n := by
  induction n using Nat.strong_induction_on with
  | _ n ih =>
    intro f g hf hg
    match n, f, g with
    | 0, 0, 0 => rfl
    | 0, 0, _ + 1 => rfl
    | 0, _ + 1, 0 => rfl
    | 0, _ + 1, _ + 1 => rfl
    | m + 1, f + 1, g + 1 =>
      have hlt : (m + 1) / 2 < m + 1 := by omega
      have hf2 : (m + 1) / 2 ≤ f := by omega
      have hg2 : (m + 1) / 2 ≤ g := by omega
      simp only [popcountAux]
      rw [ih ((m + 1) / 2) hlt f g hf2 hg2]

theorem popcount_div_mod (n : ℕ) : popcount n = n % 2 + popcount (n / 2) := by
  match n with
  | 0 => rfl
  | m + 1 =>
    show popcountAux (m + 1) (m + 1) = _
    simp only [popcountAux]
    rw [popcountAux_eq ((m + 1) / 2) m ((m + 1) / 2) (by omega) (by omega)]
    rfl

theorem lor_div_two (a b : ℕ) : (a ||| b) / 2 = a / 2 ||| b / 2 := by
  apply Nat.eq_of_testBit_eq
  intro i
  simp [Nat.testBit_div_two, Nat.testBit_lor]

theorem mod_two_le_lor_mod_two (a b : ℕ) : a % 2 ≤ (a ||| b) % 2 := by
  rcases Nat.mod_two_eq_zero_or_one a with h | h
  · simp [h]
  · have ha : a.testBit 0 = true := by simp [Nat.testBit_zero, h]
    have : (a ||| b).testBit 0 = true := by
      rw [Nat.testBit_lor, ha]; rfl
    rw [Nat.testBit_zero] at this
    simp only [decide_eq_true_eq] at this
    omega

theorem popcount_le_popcount_lor (a b : ℕ) : popcount a ≤ popcount (a ||| b) := by
  induction a using Nat.strong_induction_on generalizing b with
  | _ a ih =>
    match a with
    | 0 => simp [popcount, popcountAux]
    | m + 1 =>
      rw [popcount_div_mod (m + 1), popcount_div_mod ((m + 1) ||| b), lor_div_two]
      exact Nat.add_le_add (mod_two_le_lor_mod_two _ _)
        (ih ((m + 1) / 2) (by omega) (b / 2))

theorem popcount_le_popcount_lor_right (a b : ℕ) :
    popcount b ≤ popcount (a ||| b) := by
  rw [Nat.lor_comm]
  exact popcount_le_popcount_lor b a

theorem byteOrPad_nil_right (a : List ℕ) : byteOrPad a [] = a := by
  cases a <;> rfl

theorem count_branches_le_byteOrPad_left (a b : List ℕ) :
    count_branches a ≤ count_branches (byteOrPad a b) := by
  induction a generalizing b with
  | nil => simp [count_branches]
  | cons x xs ih =>
    cases b with
    | nil => simp [byteOrPad]
    | cons y ys =>
      simp only [byteOrPad, count_branches, List.map_cons, List.sum_cons]
      exact Nat.add_le_add (popcount_le_popcount_lor x y) (ih ys)

theorem count_branches_le_byteOrPad_right (a b : List ℕ) :
    count_branches b ≤ count_branches (byteOrPad a b) := by
  induction a generalizing b with
  | nil => simp [byteOrPad]
  | cons x xs ih =>
    cases b with
    | nil => simp [byteOrPad, count_branches]
    | cons y ys =>
      simp only [byteOrPad, count_branches, List.map_cons, List.sum_cons]
      exact Nat.add_le_add (popcount_le_popcount_lor_right x y) (ih ys)

theorem zipWith_lor_replicate_zero (b : List ℕ) :
    List.zipWith (fun m d => m ||| d) (List.replicate b.length 0) b = b := by
  induction b with
  | nil => rfl
  | cons y ys ih =>
    simp only [List.length_cons, List.replicate_succ, List.zipWith_cons_cons, ih]
    congr 1
    exact Nat.eq_of_testBit_eq fun i => by simp [Nat.testBit_lor]

theorem or_into_nil_left (b : List ℕ) : or_into [] b = b := by
  cases b with
  | nil => rfl
  | cons y ys =>
    simp only [or_into, List.length_nil, List.length_cons, List.nil_append]
    rw [if_pos (by omega), Nat.sub_zero, List.take_of_length_le (by simp),
      List.drop_of_length_le (by simp), List.append_nil]
    simpa using zipWith_lor_replicate_zero (y :: ys)

theorem or_into_nil_right (a : List ℕ) : or_into a [] = a := by
  simp [or_into]

theorem or_into_cons (a b : ℕ) (as bs : List ℕ) :
    or_into (a :: as) (b :: bs) = (a ||| b) :: or_into as bs := by
  by_cases h : as.length < bs.length
  · simp only [or_into, List.length_cons, if_pos (by omega : as.length + 1 < bs.length + 1),
      if_pos h]
    simp only [List.cons_append, List.take_succ_cons, List.zipWith_cons_cons,
      List.drop_succ_cons, List.cons_append]
    simp [Nat.succ_sub_succ]
  · simp only [or_into, List.length_cons,
      if_neg (by omega : ¬ as.length + 1 < bs.length + 1), if_neg h]
    simp [List.take_succ_cons, List.drop_succ_cons]

theorem or_into_eq_byteOrPad (a : List ℕ) : ∀ b : List ℕ, or_into a b = byteOrPad a b := by
  induction a with
  | nil => intro b; rw [or_into_nil_left]; rfl
  | cons x xs ih =>
    intro b
    cases b with
    | nil => rw [or_into_nil_right, byteOrPad_nil_right]
    | cons y ys => rw [or_into_cons, byteOrPad, ih ys]

theorem or_into_eq : or_into = byteOrPad :=
  funext fun a => funext fun b => or_into_eq_byteOrPad a b

theorem get_merged_coverage_eq_spec (edge_coverage : ℕ → List ℕ)
    (active_instances : List ℕ) :
    get_merged_coverage edge_coverage active_instances =
      merged_spec (active_instances.map edge_coverage) := by
  unfold get_merged_coverage merged_spec
  cases h : active_instances.map edge_coverage with
  | nil => rfl
  | cons first rest =>
    simp only [List.foldl_cons, or_into_eq]
    rfl

theorem get_merged_coverage_append_singleton (edge_coverage : ℕ → List ℕ)
    (s : List ℕ) (x : ℕ) :
    get_merged_coverage edge_coverage s ≤
      get_merged_coverage edge_coverage (s ++ [x]) := by
  cases s with
  | nil => exact Nat.zero_le _
  | cons s0 rest =>
    unfold get_merged_coverage
    simp only [List.map_append, List.map_cons, List.map_nil]
    show count_branches (List.foldl or_into (edge_coverage s0) (rest.map edge_coverage)) ≤
      count_branches (List.foldl or_into (edge_coverage s0)
        (rest.map edge_coverage ++ [edge_coverage x]))
    rw [List.foldl_append, List.foldl_cons, List.foldl_nil, or_into_eq_byteOrPad]
    exact count_branches_le_byteOrPad_left _ _

/-! ## Lemmas about `step` -/

theorem step_rejected (expf : ℚ → ℚ) (args : SAArgs) (weight : ℕ → ℚ)
    (edge_coverage : ℕ → List ℕ) (ca cand : List ℕ) (u : ℚ) (s : SchedState)
    (h : ¬ u < accept_prob expf weight edge_coverage ca cand s.temp) :
    step expf args weight edge_coverage ca cand u s
      = { s with temp := max (s.temp * args.cool_rate) args.min_temp } := by
  simp only [step]
  rw [if_neg h]

theorem step_accepted_improving (expf : ℚ → ℚ) (args : SAArgs) (weight : ℕ → ℚ)
    (edge_coverage : ℕ → List ℕ) (ca cand : List ℕ) (u : ℚ) (s : SchedState)
    (h : u < accept_prob expf weight edge_coverage ca cand s.temp)
    (him : energy_lt (calculate_energy weight edge_coverage cand) s.best_energy = true) :
    step expf args weight edge_coverage ca cand u s
      = { s with best_energy := some (calculate_energy weight edge_coverage cand),
                 best_state := cand, stagnation := 0,
                 temp := max (s.temp * args.cool_rate) args.min_temp } := by
  simp only [step]
  rw [if_pos h, if_pos him]

theorem step_accepted_not_improving (expf : ℚ → ℚ) (args : SAArgs) (weight : ℕ → ℚ)
    (edge_coverage : ℕ → List ℕ) (ca cand : List ℕ) (u : ℚ) (s : SchedState)
    (h : u < accept_prob expf weight edge_coverage ca cand s.temp)
    (him : energy_lt (calculate_energy weight edge_coverage cand) s.best_energy = false) :
    step expf args weight edge_coverage ca cand u s
      = { s with stagnation := s.stagnation + 1,
                 temp := max (s.temp * args.cool_rate) args.min_temp } := by
  simp only [step]
  rw [if_pos h, him]
  rfl

theorem step_temp (expf : ℚ → ℚ) (args : SAArgs) (weight : ℕ → ℚ)
    (edge_coverage : ℕ → List ℕ) (ca cand : List ℕ) (u : ℚ) (s : SchedState) :
    (step expf args weight edge_coverage ca cand u s).temp
      = max (s.temp * args.cool_rate) args.min_temp := by
  simp only [step]
  split
  · split <;> rfl
  · rfl

/-! ## Lemmas about the temperature sequence -/

theorem temp_seq_closed_form (t0 c m : ℚ) (hc0 : 0 ≤ c) (hc1 : c ≤ 1) (hm : 0 ≤ m)
    (n : ℕ) : temp_seq t0 c m (n + 1) = max (t0 * c ^ (n + 1)) m := by
  induction n with
  | zero => simp [temp_seq]
  | succ k ih =>
    show max (temp_seq t0 c m (k + 1) * c) m = _
    rw [ih, max_mul_of_nonneg _ _ hc0]
    rw [max_assoc]
    congr 1
    · ring
    · exact max_eq_right (mul_le_of_le_one_right hm hc1)

theorem temp_seq_reaches_min (t0 c m : ℚ) (hc0 : 0 ≤ c) (hc1 : c < 1) (hm : 0 < m) :
    ∃ N, ∀ n, N ≤ n → temp_seq t0 c m n = m := by
  rcases le_or_lt t0 0 with ht | ht
  · refine ⟨1, fun n hn => ?_⟩
    obtain ⟨k, rfl⟩ : ∃ k, n = k + 1 := ⟨n - 1, by omega⟩
    rw [temp_seq_closed_form t0 c m hc0 hc1.le hm.le]
    apply max_eq_right
    have h1 : t0 * c ^ (k + 1) ≤ 0 * c ^ (k + 1) :=
      mul_le_mul_of_nonneg_right ht (pow_nonneg hc0 _)
    rw [zero_mul] at h1
    linarith
  · obtain ⟨N, hN⟩ := exists_pow_lt_of_lt_one (div_pos hm ht) hc1
    refine ⟨N + 1, fun n hn => ?_⟩
    obtain ⟨k, rfl⟩ : ∃ k, n = k + 1 := ⟨n - 1, by omega⟩
    rw [temp_seq_closed_form t0 c m hc0 hc1.le hm.le]
    apply max_eq_right
    have h1 : c ^ (k + 1) ≤ c ^ N := pow_le_pow_of_le_one hc0 hc1.le (by omega)
    have h2 : t0 * c ^ (k + 1) ≤ t0 * c ^ N := mul_le_mul_of_nonneg_left h1 ht.le
    have h3 : c ^ N * t0 < m := (lt_div_iff₀ ht).mp hN
    nlinarith

/-! ## Lemmas about weights -/

theorem one_le_calc_weight (p : String) : 1 ≤ calc_weight p := by
  simp only [calc_weight]
  split
  · norm_num
  · split <;> norm_num

theorem one_le_foldl_apply_slot_op (ops : List SlotOp) (w : ℚ) (hw : 1 ≤ w) :
    1 ≤ ops.foldl apply_slot_op w := by
  induction ops generalizing w with
  | nil => exact hw
  | cons op rest ih =>
    cases op with
    | switchOk cfg => exact ih _ (one_le_calc_weight cfg)
    | switchFail => exact ih _ hw
    | deact => exact ih _ hw

/-! ## Claims -/

/-- C1: with a configuration pool holding a single distinct configuration
that the worst-ranked slot already runs, efficiency-guided candidate
generation raises `IndexError` (`random.choice` of the empty filtered
list), modelled as `none`, in both `_optimize_by_efficiency` and
`_batch_optimize`: there is no fallback to a same-configuration restart,
contrary to the claim. -/
theorem C1_single_config_pool_raises :
    optimize_by_efficiency (fun _ => 1) (fun _ => []) (fun _ => some "only.xml")
      ["only.xml"] 0 [7] = none
    ∧ batch_optimize (fun _ => 1) (fun _ => []) (fun _ => some "only.xml")
      ["only.xml"] [0] 1 [7] = none :=
  ⟨by decide, by decide⟩

/-- C2: on every realizable scheduler step — `_generate_candidate`
always returns the same id set as the current active set (its variants
only re-assign configurations, removing and re-adding ids), and the
`random.random()` draw is below 1 — both energies at lines 437–438 are
computed from identical post-mutation state, so the acceptance branch is
always taken; there the stagnation counter resets to 0 exactly when the
candidate energy improves on the best-known energy and increments
whenever the step fails to beat it; and once the counter reaches
max_stagnant, the driver loop (not the scheduler itself) resets
temperature to init_temp and stagnation to 0. -/
theorem C2_stagnation (expf : ℚ → ℚ) (args : SAArgs) (weight : ℕ → ℚ)
    (edge_coverage : ℕ → List ℕ) (ca cand : List ℕ) (u : ℚ) (s : SchedState)
    (hcand : cand = ca) (hu : u < 1) :
    ((step expf args weight edge_coverage ca cand u s).stagnation = 0
      ↔ energy_lt (calculate_energy weight edge_coverage cand) s.best_energy = true)
    ∧ (energy_lt (calculate_energy weight edge_coverage cand) s.best_energy = false →
      (step expf args weight edge_coverage ca cand u s).stagnation = s.stagnation + 1)
    ∧ (args.max_stagnant ≤ s.stagnation →
      (driver_stagnation_check args s).temp = args.init_temp
      ∧ (driver_stagnation_check args s).stagnation = 0) := by
  subst hcand
  have hap : accept_prob expf weight edge_coverage cand cand s.temp = 1 := by
    simp [accept_prob]
  have hacc : u < accept_prob expf weight edge_coverage cand cand s.temp := by
    rw [hap]; exact hu
  refine ⟨?_, fun him => ?_, fun h => ?_⟩
  · cases him : energy_lt (calculate_energy weight edge_coverage cand) s.best_energy with
    | true =>
      rw [step_accepted_improving expf args weight edge_coverage cand cand u s hacc him]
      simp
    | false =>
      rw [step_accepted_not_improving expf args weight edge_coverage cand cand u s hacc him]
      simp
  · rw [step_accepted_not_improving expf args weight edge_coverage cand cand u s hacc him]
  · unfold driver_stagnation_check
    rw [if_pos h]
    exact ⟨rfl, rfl⟩

/-- Witness for C2: a step from best_energy = ∞ (so the candidate
improves) resets stagnation from 20 to 0, and the driver check at
stagnation 20 ≥ max_stagnant 20 restores the initial temperature. -/
theorem C2_stagnation_witness :
    ((step (fun _ => 1) ⟨1000, 0, 1, 20⟩ (fun _ => 1) (fun _ => []) [] [] 0
        ⟨10, [], none, 20⟩).stagnation = 0
      ↔ energy_lt (calculate_energy (fun _ => 1) (fun _ => []) []) none = true)
    ∧ (driver_stagnation_check ⟨1000, 0, 1, 20⟩ ⟨10, [], none, 20⟩).temp = 1000 :=
  ⟨(C2_stagnation (fun _ => 1) ⟨1000, 0, 1, 20⟩ (fun _ => 1) (fun _ => []) [] [] 0
      ⟨10, [], none, 20⟩ rfl (by decide)).1,
   ((C2_stagnation (fun _ => 1) ⟨1000, 0, 1, 20⟩ (fun _ => 1) (fun _ => []) [] [] 0
      ⟨10, [], none, 20⟩ rfl (by decide)).2.2 (by decide)).1⟩

/-- C3: `get_merged_coverage` equals the spec-side description (bitwise
or across all the given slots' snapshots, shorter buffers zero-padded to
the longest, then popcount), returns 0 for the empty slot set, and on the
claim's scenarios snapshots 0x0F and 0xF0 merge to coverage 8 while
[0x0F, 0xFF] merged with [0xFF] yields popcount 16. -/
theorem C3_merged_coverage (edge_coverage : ℕ → List ℕ) (active : List ℕ) :
    get_merged_coverage edge_coverage active = merged_spec (active.map edge_coverage)
    ∧ get_merged_coverage edge_coverage [] = 0
    ∧ get_merged_coverage
        (fun i => if i = 1 then [0x0F] else if i = 2 then [0xF0] else []) [1, 2] = 8
    ∧ get_merged_coverage
        (fun i => if i = 1 then [0x0F, 0xFF] else if i = 2 then [0xFF] else [])
        [1, 2] = 16 :=
  ⟨get_merged_coverage_eq_spec edge_coverage active, rfl, by decide, by decide⟩

/-- C4: merged coverage is monotonically non-decreasing as a slot is
added to the active set. -/
theorem C4_merged_coverage_monotone (edge_coverage : ℕ → List ℕ) (s : List ℕ) (x : ℕ) :
    get_merged_coverage edge_coverage s ≤ get_merged_coverage edge_coverage (s ++ [x]) :=
  get_merged_coverage_append_singleton edge_coverage s x

/-- C5: every scheduler step cools the temperature by
`T ← max(T * cool_rate, min_temp)`; for `0 ≤ cool_rate < 1` and
`0 < min_temp` the induced sequence reaches `min_temp` and stays there;
and with init 10, rate 1/2, floor 1 the temperature is 5 after step 1 and
1 after step 4. -/
theorem C5_temperature (expf : ℚ → ℚ) (args : SAArgs) (weight : ℕ → ℚ)
    (edge_coverage : ℕ → List ℕ) (ca cand : List ℕ) (u : ℚ) (s : SchedState) (t0 : ℚ)
    (hc0 : 0 ≤ args.cool_rate) (hc1 : args.cool_rate < 1) (hm : 0 < args.min_temp) :
    (step expf args weight edge_coverage ca cand u s).temp
      = max (s.temp * args.cool_rate) args.min_temp
    ∧ (∃ N, ∀ n, N ≤ n → temp_seq t0 args.cool_rate args.min_temp n = args.min_temp)
    ∧ temp_seq 10 (1 / 2) 1 1 = 5
    ∧ temp_seq 10 (1 / 2) 1 4 = 1 := by
  refine ⟨step_temp expf args weight edge_coverage ca cand u s,
    temp_seq_reaches_min t0 args.cool_rate args.min_temp hc0 hc1 hm, ?_, ?_⟩
  · show max ((10 : ℚ) * (1 / 2)) 1 = 5
    norm_num [max_def]
  · show max (max (max (max ((10 : ℚ) * (1 / 2)) 1 * (1 / 2)) 1 * (1 / 2)) 1 * (1 / 2)) 1 = 1
    norm_num [max_def]

/-- Witness for C5 at cool_rate 0, min_temp 1. -/
theorem C5_temperature_witness :
    (step (fun _ => 1) ⟨1000, 0, 1, 20⟩ (fun _ => 1) (fun _ => []) [] [] 0
        ⟨10, [], none, 0⟩).temp = max (10 * 0) 1
    ∧ (∃ N, ∀ n, N ≤ n → temp_seq 10 0 1 n = 1)
    ∧ temp_seq 10 (1 / 2) 1 1 = 5
    ∧ temp_seq 10 (1 / 2) 1 4 = 1 :=
  C5_temperature (fun _ => 1) ⟨1000, 0, 1, 20⟩ (fun _ => 1) (fun _ => []) [] [] 0
    ⟨10, [], none, 0⟩ 10 (by decide) (by decide) (by decide)

/-- C6: the energy of an active set equals
`0.7 * Σ(weight) − 0.3 * mergedCoverage`; holding aggregate weight fixed
energy is non-increasing in coverage, and holding coverage fixed it is
non-decreasing in aggregate weight. -/
theorem C6_energy (weight weight2 : ℕ → ℚ) (edge_coverage edge_coverage2 : ℕ → List ℕ)
    (active : List ℕ) :
    calculate_energy weight edge_coverage active
      = 0.7 * (active.map weight).sum
        - 0.3 * (get_merged_coverage edge_coverage active : ℚ)
    ∧ (get_merged_coverage edge_coverage active ≤ get_merged_coverage edge_coverage2 active →
      calculate_energy weight edge_coverage2 active
        ≤ calculate_energy weight edge_coverage active)
    ∧ ((active.map weight).sum ≤ (active.map weight2).sum →
      calculate_energy weight edge_coverage active
        ≤ calculate_energy weight2 edge_coverage active) := by
  refine ⟨rfl, fun h => ?_, fun h => ?_⟩
  · simp only [calculate_energy]
    have hc : (get_merged_coverage edge_coverage active : ℚ)
        ≤ (get_merged_coverage edge_coverage2 active : ℚ) := by exact_mod_cast h
    have h3 : (0.3 : ℚ) * (get_merged_coverage edge_coverage active : ℚ)
        ≤ 0.3 * (get_merged_coverage edge_coverage2 active : ℚ) :=
      mul_le_mul_of_nonneg_left hc (by norm_num)
    linarith
  · simp only [calculate_energy]
    have h3 : (0.7 : ℚ) * (active.map weight).sum ≤ 0.7 * (active.map weight2).sum :=
      mul_le_mul_of_nonneg_left h (by norm_num)
    linarith

/-- Witness for C6: adding coverage lowers energy, adding weight raises it. -/
theorem C6_energy_witness :
    calculate_energy (fun _ => 1) (fun _ => [1]) [0]
      ≤ calculate_energy (fun _ => 1) (fun _ => []) [0]
    ∧ calculate_energy (fun _ => 1) (fun _ => []) [0]
      ≤ calculate_energy (fun _ => 2) (fun _ => []) [0] :=
  ⟨(C6_energy (fun _ => 1) (fun _ => 2) (fun _ => []) (fun _ => [1]) [0]).2.1 (by decide),
   (C6_energy (fun _ => 1) (fun _ => 2) (fun _ => []) (fun _ => [1]) [0]).2.2 (by simp)⟩

/-- C7: the weight classification is a deterministic substring match on
the (lower-cased stem of the) configuration name — containing "heavy"
gives 2.0, otherwise containing "medium" gives 1.5, otherwise 1.0 — and
a slot's weight is ≥ 1 at pool initialization and stays ≥ 1 under every
sequence of configuration switches and deactivations. -/
theorem C7_weight (config_path : String) (ops : List SlotOp) :
    (contains_sub "heavy".toList ((stem config_path.toList).map Char.toLower) = true →
      calc_weight config_path = 2)
    ∧ (contains_sub "heavy".toList ((stem config_path.toList).map Char.toLower) = false →
      contains_sub "medium".toList ((stem config_path.toList).map Char.toLower) = true →
      calc_weight config_path = 1.5)
    ∧ (contains_sub "heavy".toList ((stem config_path.toList).map Char.toLower) = false →
      contains_sub "medium".toList ((stem config_path.toList).map Char.toLower) = false →
      calc_weight config_path = 1)
    ∧ 1 ≤ calc_weight config_path
    ∧ 1 ≤ weight_after ops := by
  refine ⟨fun h1 => ?_, fun h1 h2 => ?_, fun h1 h2 => ?_, one_le_calc_weight config_path,
    one_le_foldl_apply_slot_op ops 1 le_rfl⟩
  · simp only [calc_weight]
    rw [h1]
    simp
  · simp only [calc_weight]
    rw [h1, h2]
    simp
  · simp only [calc_weight]
    rw [h1, h2]
    simp

/-- Witness for C7 on a "heavy" configuration path and a two-operation
slot history. -/
theorem C7_weight_witness :
    calc_weight "conf/proto_heavy.xml" = 2
    ∧ 1 ≤ weight_after [SlotOp.switchOk "a_medium.xml", SlotOp.deact] :=
  ⟨(C7_weight "conf/proto_heavy.xml" []).1 (by decide),
   (C7_weight "conf/proto_heavy.xml"
      [SlotOp.switchOk "a_medium.xml", SlotOp.deact]).2.2.2.2⟩

/-- C8: whatever exception class (interrupt or unhandled error) escapes
whichever iteration of the driver loop, `main`'s `finally` clause finds
the `pool` local bound and runs pool cleanup before the process exits. -/
theorem C8_cleanup_always_runs (k : ℕ) (e : PyExc) :
    (main_model (RaisePoint.loopIteration k) e).cleanup_ran = true := rfl

/-- C9: executing the module's top-level statements in order raises
`NameError` (modelled as `none`): `AsyncCoverageMonitor` references base
class `CoverageMonitor` before it is defined (and the same pattern
repeats for the other two subclasses), so the module cannot load and
`main()` can never run, contrary to the claim; the prefix before the
first subclass definition executes fine. -/
theorem C9_module_order_raises :
    exec_top_level module_top_level [] = none
    ∧ exec_top_level (module_top_level.take 1) [] = some ["parse_args"] :=
  ⟨by decide, by decide⟩

/-- C10: a step whose candidate is rejected by the Metropolis draw
(`u` not below the acceptance probability) leaves best_state,
best_energy and the stagnation counter unchanged, while the temperature
is still cooled by `max(temp * cool_rate, min_temp)`. -/
theorem C10_rejected_draw_frame (expf : ℚ → ℚ) (args : SAArgs) (weight : ℕ → ℚ)
    (edge_coverage : ℕ → List ℕ) (ca cand : List ℕ) (u : ℚ) (s : SchedState)
    (h : ¬ u < accept_prob expf weight edge_coverage ca cand s.temp) :
    (step expf args weight edge_coverage ca cand u s).best_state = s.best_state
    ∧ (step expf args weight edge_coverage ca cand u s).best_energy = s.best_energy
    ∧ (step expf args weight edge_coverage ca cand u s).stagnation = s.stagnation
    ∧ (step expf args weight edge_coverage ca cand u s).temp
        = max (s.temp * args.cool_rate) args.min_temp := by
  rw [step_rejected expf args weight edge_coverage ca cand u s h]
  exact ⟨rfl, rfl, rfl, rfl⟩

/-- Witness for C10: with equal current and candidate energies the
acceptance probability is 1 and the draw 1 is rejected, leaving the
search bookkeeping untouched while the temperature cools. -/
theorem C10_rejected_draw_frame_witness :
    (step (fun _ => 1) ⟨1000, 0, 1, 20⟩ (fun _ => 1) (fun _ => []) [] [] 1
        ⟨10, [2], some 3, 5⟩).best_state = [2]
    ∧ (step (fun _ => 1) ⟨1000, 0, 1, 20⟩ (fun _ => 1) (fun _ => []) [] [] 1
        ⟨10, [2], some 3, 5⟩).best_energy = some 3
    ∧ (step (fun _ => 1) ⟨1000, 0, 1, 20⟩ (fun _ => 1) (fun _ => []) [] [] 1
        ⟨10, [2], some 3, 5⟩).stagnation = 5
    ∧ (step (fun _ => 1) ⟨1000, 0, 1, 20⟩ (fun _ => 1) (fun _ => []) [] [] 1
        ⟨10, [2], some 3, 5⟩).temp = max (10 * 0) 1 :=
  C10_rejected_draw_frame (fun _ => 1) ⟨1000, 0, 1, 20⟩ (fun _ => 1) (fun _ => []) [] [] 1
    ⟨10, [2], some 3, 5⟩ (by simp [accept_prob])

end ConFuzz
